import Mathlib

/-!
Verification of the acousticdi data-link stack: the packet framer
(src/lib.rs), the physics-layer preamble voting and frequency decoding
(src/physics.rs), and the receiver synchronization state machine
(src/transmission.rs), shallowly embedded in Lean.

Bytes are modelled as natural numbers; raw audio samples never appear,
because every claim treated here is either about byte-level framing or
about the control logic that consumes spectral-analysis outcomes.
-/

/-- `Packet { order: usize, data: Vec<u8> }` from src/lib.rs. -/
structure Packet where
  order : Nat
  data : List Nat
deriving Repr, DecidableEq

/-- `Packet::MAX_PACKET_SIZE` from src/lib.rs. -/
def MAX_PACKET_SIZE : Nat := 128

/-- The chunk iteration of Rust `slice::chunks(128)`: consecutive pieces of
at most 128 bytes, no chunk for the empty slice.  The fuel argument only
serves termination; `fuel ≥ l.length` makes it exhaustive. -/
def chunksGo : Nat → List Nat → List (List Nat)
  | _, [] => []
  | 0, _ => []
  | fuel + 1, l => l.take MAX_PACKET_SIZE :: chunksGo fuel (l.drop MAX_PACKET_SIZE)

/-- `v.chunks(MAX_PACKET_SIZE)` on a byte vector. -/
def chunks (l : List Nat) : List (List Nat) := chunksGo l.length l

/-- `Packet::new_packets` from src/lib.rs: chunk and enumerate. -/
def new_packets (v : List Nat) : List Packet :=
  (chunks v).enum.map (fun p => ⟨p.1, p.2⟩)

/-- `Packet::unpack` from src/lib.rs: stable-sort by `order`
(`sort_by_key`) and concatenate the `data` fields. -/
def unpack (vp : List Packet) : List Nat :=
  ((vp.mergeSort (fun a b => a.order ≤ b.order)).map Packet.data).flatten

/-- `usize::to_le_bytes` generalized to `k` little-endian base-256 digits;
`k = 8` is the 64-bit `usize` layout. -/
def toLeBytes : Nat → Nat → List Nat
  | 0, _ => []
  | k + 1, n => n % 256 :: toLeBytes k (n / 256)

/-- `usize::from_le_bytes` on a little-endian digit list. -/
def fromLeBytes (l : List Nat) : Nat :=
  l.foldr (fun b acc => b + 256 * acc) 0

/-- `Packet::seal_one` from src/lib.rs: 8-byte LE `order`, 8-byte LE
payload length, then the payload. -/
def seal_one (p : Packet) : List Nat :=
  toLeBytes 8 p.order ++ toLeBytes 8 p.data.length ++ p.data

/-- `Packet::unseal_one` from src/lib.rs.  The source indexes
`v[0..8]`, `v[8..16]` and `v[16..16+len]` with `unwrap`; any of those
slicing steps panics when the buffer is too short, modelled as `none`. -/
def unseal_one (v : List Nat) : Option Packet :=
  if v.length < 16 then none
  else
    let len := fromLeBytes ((v.drop 8).take 8)
    if v.length < 16 + len then none
    else some ⟨fromLeBytes (v.take 8), (v.drop 16).take len⟩

-- Framer helper lemmas

theorem chunksGo_flatten (fuel : Nat) :
    ∀ l : List Nat, l.length ≤ fuel → (chunksGo fuel l).flatten = l := by
  induction fuel with
  | zero =>
    intro l hl
    cases l with
    | nil => rfl
    | cons x xs => simp at hl
  | succ n ih =>
    intro l hl
    cases l with
    | nil => rfl
    | cons x xs =>
      simp only [chunksGo, List.flatten_cons]
      rw [ih (List.drop MAX_PACKET_SIZE (x :: xs)) (by simp [MAX_PACKET_SIZE] at hl ⊢; omega)]
      exact List.take_append_drop _ _

theorem chunks_flatten (l : List Nat) : (chunks l).flatten = l :=
  chunksGo_flatten l.length l (Nat.le_refl _)

theorem chunksGo_length_le (fuel : Nat) :
    ∀ l : List Nat, ∀ c ∈ chunksGo fuel l, c.length ≤ MAX_PACKET_SIZE := by
  induction fuel with
  | zero =>
    intro l c hc
    cases l <;> simp [chunksGo] at hc
  | succ n ih =>
    intro l c hc
    cases l with
    | nil => simp [chunksGo] at hc
    | cons x xs =>
      simp only [chunksGo, List.mem_cons] at hc
      rcases hc with hc | hc
      · subst hc; simp [List.length_take_le]
      · exact ih _ _ hc

theorem le_fst_of_mem_enumFrom {α : Type*} {n : Nat} {l : List α}
    {b : Nat × α} (hb : b ∈ List.enumFrom n l) : n ≤ b.1 := by
  induction l generalizing n with
  | nil => simp at hb
  | cons x xs ih =>
    rw [List.enumFrom_cons, List.mem_cons] at hb
    rcases hb with hb | hb
    · subst hb; exact Nat.le_refl _
    · have := ih hb; omega

theorem pairwise_fst_le_enumFrom {α : Type*} (n : Nat) (l : List α) :
    (List.enumFrom n l).Pairwise (fun a b => a.1 ≤ b.1) := by
  induction l generalizing n with
  | nil => simp
  | cons x xs ih =>
    rw [List.enumFrom_cons]
    refine List.Pairwise.cons ?_ (ih (n + 1))
    intro b hb
    have := le_fst_of_mem_enumFrom hb
    omega

theorem new_packets_sorted (v : List Nat) :
    (new_packets v).Pairwise (fun a b => a.order ≤ b.order) := by
  unfold new_packets
  rw [List.pairwise_map, List.enum_eq_enumFrom]
  exact pairwise_fst_le_enumFrom 0 (chunks v)

theorem unpack_of_sorted (vp : List Packet)
    (h : vp.Pairwise (fun a b => a.order ≤ b.order)) :
    unpack vp = (vp.map Packet.data).flatten := by
  unfold unpack
  rw [List.mergeSort_of_sorted]
  exact h.imp (fun hab => by simpa using hab)

theorem new_packets_data_flatten (b : List Nat) :
    ((new_packets b).map Packet.data).flatten = b := by
  unfold new_packets
  rw [List.map_map]
  have hcomp : (Packet.data ∘ fun p : Nat × List Nat => (⟨p.1, p.2⟩ : Packet)) =
      Prod.snd := rfl
  rw [hcomp, List.enum_eq_enumFrom, List.enumFrom_map_snd]
  exact chunks_flatten b

/-- Claim C1: for every byte sequence `b`, reassembling the packets
produced by chunking yields `b` again: `unpack (new_packets b) = b`. -/
theorem C1_unpack_new_packets (b : List Nat) : unpack (new_packets b) = b := by
  rw [unpack_of_sorted _ (new_packets_sorted b)]
  exact new_packets_data_flatten b

set_option maxRecDepth 4000 in
/-- Claim C10: chunking splits the input into consecutive non-overlapping
pieces of at most 128 bytes whose concatenation restores the input, with
`order` equal to the dense zero-based chunk index; a 256-byte input yields
exactly two packets with orders 0, 1 and data lengths 128, 128. -/
theorem C10_new_packets_layout :
    (∀ b : List Nat,
      ((new_packets b).map Packet.data).flatten = b ∧
      (∀ p ∈ new_packets b, p.data.length ≤ 128) ∧
      (new_packets b).map Packet.order =
        List.range (new_packets b).length) ∧
    (new_packets (List.replicate 256 7)).map
        (fun p => (p.order, p.data.length)) = [(0, 128), (1, 128)] := by
  constructor
  · intro b
    refine ⟨?_, ?_, ?_⟩
    · exact new_packets_data_flatten b
    · intro p hp
      unfold new_packets at hp
      rw [List.mem_map] at hp
      obtain ⟨q, hq, hqp⟩ := hp
      have hsnd : q.2 ∈ chunks b := by
        have := List.mem_map_of_mem Prod.snd hq
        rwa [List.enum_eq_enumFrom, List.enumFrom_map_snd] at this
      have := chunksGo_length_le b.length b q.2 hsnd
      rw [← hqp]
      simpa [MAX_PACKET_SIZE] using this
    · unfold new_packets
      rw [List.map_map]
      have hcomp :
          (Packet.order ∘ fun p : Nat × List Nat => (⟨p.1, p.2⟩ : Packet)) =
          Prod.fst := rfl
      rw [hcomp, List.enum_eq_enumFrom, List.enumFrom_map_fst,
        ← List.range_eq_range']
      simp
  · decide

-- Wire-format helper lemmas

theorem length_toLeBytes (k n : Nat) : (toLeBytes k n).length = k := by
  induction k generalizing n with
  | zero => rfl
  | succ m ih => simp [toLeBytes, ih]

theorem fromLeBytes_toLeBytes (k n : Nat) :
    fromLeBytes (toLeBytes k n) = n % 256 ^ k := by
  induction k generalizing n with
  | zero => simp [toLeBytes, fromLeBytes, Nat.mod_one]
  | succ m ih =>
    show n % 256 + 256 * fromLeBytes (toLeBytes m (n / 256)) = n % 256 ^ (m + 1)
    rw [ih, pow_succ, Nat.mul_comm (256 ^ m) 256, Nat.mod_mul]

/-- Claim C4: `seal_one` produces exactly the fixed wire layout — 8-byte
little-endian `order`, 8-byte little-endian payload length, then the
payload — for a total frame size of `16 + length`. -/
theorem C4_seal_one_layout (p : Packet) :
    (seal_one p).length = 16 + p.data.length ∧
    (p.order < 2 ^ 64 → fromLeBytes ((seal_one p).take 8) = p.order) ∧
    (p.data.length < 2 ^ 64 →
      fromLeBytes (((seal_one p).drop 8).take 8) = p.data.length) ∧
    (seal_one p).drop 16 = p.data := by
  have h1 : (toLeBytes 8 p.order).length = 8 := length_toLeBytes 8 p.order
  have h2 : (toLeBytes 8 p.data.length).length = 8 :=
    length_toLeBytes 8 p.data.length
  have h256 : (256 : Nat) ^ 8 = 2 ^ 64 := by norm_num
  have h12 : (toLeBytes 8 p.order ++ toLeBytes 8 p.data.length).length = 16 := by
    simp [h1, h2]
  refine ⟨?_, ?_, ?_, ?_⟩
  · simp [seal_one, h1, h2]; omega
  · intro ho
    rw [seal_one, List.append_assoc, List.take_left' h1,
      fromLeBytes_toLeBytes, h256]
    exact Nat.mod_eq_of_lt ho
  · intro hl
    rw [seal_one, List.append_assoc, List.drop_left' h1, List.take_left' h2,
      fromLeBytes_toLeBytes, h256]
    exact Nat.mod_eq_of_lt hl
  · rw [seal_one, List.drop_left' h12]

/-- Witness for C4 at the concrete packet of scenario A: the single packet
holding the 11 bytes of "hello world" serializes to a 27-byte frame whose
order field decodes back to 0. -/
theorem C4_seal_one_layout_witness :
    (0 : Nat) < 2 ^ 64 ∧
    (seal_one ⟨0, [104, 101, 108, 108, 111, 32, 119, 111, 114, 108, 100]⟩).length
      = 27 ∧
    fromLeBytes ((seal_one
      ⟨0, [104, 101, 108, 108, 111, 32, 119, 111, 114, 108, 100]⟩).take 8) = 0 := by
  refine ⟨by norm_num, ?_, ?_⟩
  · have := (C4_seal_one_layout
      ⟨0, [104, 101, 108, 108, 111, 32, 119, 111, 114, 108, 100]⟩).1
    simpa using this
  · exact (C4_seal_one_layout
      ⟨0, [104, 101, 108, 108, 111, 32, 119, 111, 114, 108, 100]⟩).2.1
      (by norm_num)

/-- Claim C3: on a buffer shorter than `16 + length` bytes the source
`unseal_one` does not return a typed malformed-frame error; its slice
`v[16..16+len]` is out of bounds and the program aborts (modelled `none`).
Evaluated at a 16-byte frame declaring payload length 1. -/
theorem C3_unseal_one_short_buffer_aborts :
    unseal_one [0, 0, 0, 0, 0, 0, 0, 0, 1, 0, 0, 0, 0, 0, 0, 0] = none := by
  rfl

-- Physics layer (src/physics.rs)

/-- `CARRIER_FREQS` from src/physics.rs, the four f64 decimal literals as
exact rationals. -/
def CARRIER_FREQS : List ℚ :=
  [2083464566929134 / 10 ^ 12, 26043307086614172 / 10 ^ 13,
   34724409448818897 / 10 ^ 13, 4166929133858268 / 10 ^ 12]

/-- `PREAMBLE_FREQS` from src/physics.rs. -/
def PREAMBLE_FREQS : List ℚ :=
  [1388976377952756 / 10 ^ 12, 29515748031496064 / 10 ^ 13]

/-- The loop of Rust `slice::binary_search_by` (called in
`decode_by_given_freq_pattern` with a `partial_cmp` comparator): halving
on `mid = left + (right - left) / 2`, `Ok mid` on an exact match, `Err`
(here `none`, the `unwrap` panic) once the range is empty.  The fuel
argument only serves termination and `pat.length + 1` iterations always
suffice. -/
def binarySearchGo (pat : List ℚ) (f : ℚ) : Nat → Nat → Nat → Option Nat
  | 0, _, _ => none
  | fuel + 1, left, right =>
    if left < right then
      let mid := left + (right - left) / 2
      let p := pat.getD mid 0
      if p < f then binarySearchGo pat f fuel (mid + 1) right
      else if f < p then binarySearchGo pat f fuel left mid
      else some mid
    else none

/-- `pattern.binary_search_by(|probe| probe.partial_cmp(freq))`. -/
def binarySearch (pat : List ℚ) (f : ℚ) : Option Nat :=
  binarySearchGo pat f (pat.length + 1) 0 pat.length

/-- The accumulation loop of `decode_by_given_freq_pattern`
(src/physics.rs): `byte_result |= 1 << idx` for each dominant frequency;
a failed lookup is the `unwrap` panic, modelled `none`. -/
def decodeGo (pat : List ℚ) : List ℚ → Nat → Option Nat
  | [], acc => some acc
  | f :: rest, acc =>
    match binarySearch pat f with
    | none => none
    | some idx => decodeGo pat rest (acc ||| (1 <<< idx))

/-- `decode_by_given_freq_pattern` from src/physics.rs. -/
def decode_by_given_freq_pattern (pat : List ℚ) (freqs : List ℚ) : Option Nat :=
  decodeGo pat freqs 0

theorem binarySearchGo_succ (pat : List ℚ) (f : ℚ) (fuel l r : Nat) :
    binarySearchGo pat f (fuel + 1) l r =
    if l < r then
      let mid := l + (r - l) / 2
      let p := pat.getD mid 0
      if p < f then binarySearchGo pat f fuel (mid + 1) r
      else if f < p then binarySearchGo pat f fuel l mid
      else some mid
    else none := rfl

theorem binarySearch_carrier_none_of_not_mem (f : ℚ)
    (hm : f ∉ CARRIER_FREQS) : binarySearch CARRIER_FREQS f = none := by
  have hm0 : f ≠ 2083464566929134 / 10 ^ 12 := by
    intro h; exact hm (by rw [h]; simp [CARRIER_FREQS])
  have hm1 : f ≠ 26043307086614172 / 10 ^ 13 := by
    intro h; exact hm (by rw [h]; simp [CARRIER_FREQS])
  have hm2 : f ≠ 34724409448818897 / 10 ^ 13 := by
    intro h; exact hm (by rw [h]; simp [CARRIER_FREQS])
  have hm3 : f ≠ 4166929133858268 / 10 ^ 12 := by
    intro h; exact hm (by rw [h]; simp [CARRIER_FREQS])
  show binarySearchGo CARRIER_FREQS f (CARRIER_FREQS.length + 1) 0
    CARRIER_FREQS.length = none
  have hlen : CARRIER_FREQS.length = 4 := by simp [CARRIER_FREQS]
  rw [hlen]
  simp only [binarySearchGo_succ]
  norm_num [CARRIER_FREQS]
  split_ifs <;>
    first
    | rfl
    | (exfalso; first
        | linarith
        | (rcases lt_or_gt_of_ne hm0 with h | h <;> linarith)
        | (rcases lt_or_gt_of_ne hm1 with h | h <;> linarith)
        | (rcases lt_or_gt_of_ne hm2 with h | h <;> linarith)
        | (rcases lt_or_gt_of_ne hm3 with h | h <;> linarith))

theorem binarySearch_carrier_isSome_iff (f : ℚ) :
    (binarySearch CARRIER_FREQS f).isSome ↔ f ∈ CARRIER_FREQS := by
  constructor
  · intro h
    by_contra hmem
    rw [binarySearch_carrier_none_of_not_mem f hmem] at h
    simp at h
  · intro h
    fin_cases h <;>
      (unfold binarySearch
       norm_num [CARRIER_FREQS]
       simp only [binarySearchGo_succ]
       norm_num)

theorem decodeGo_carrier_isSome_iff (freqs : List ℚ) :
    ∀ acc : Nat, (decodeGo CARRIER_FREQS freqs acc).isSome ↔
      ∀ f ∈ freqs, f ∈ CARRIER_FREQS := by
  induction freqs with
  | nil => intro acc; simp [decodeGo]
  | cons f rest ih =>
    intro acc
    by_cases hf : f ∈ CARRIER_FREQS
    · have hbs : (binarySearch CARRIER_FREQS f).isSome :=
        (binarySearch_carrier_isSome_iff f).2 hf
      obtain ⟨idx, hidx⟩ := Option.isSome_iff_exists.1 hbs
      simp only [decodeGo, hidx]
      rw [ih (acc ||| (1 <<< idx))]
      simp [hf]
    · have hbs : binarySearch CARRIER_FREQS f = none :=
        binarySearch_carrier_none_of_not_mem f hf
      simp only [decodeGo, hbs]
      simp [hf]

/-- Counterexample to C9: the dominant frequency 0 is not in
`CARRIER_FREQS`, and on it the exact-match binary-search lookup of
`decode_by_given_freq_pattern` fails its `unwrap` (the abort is modelled
`none`): the function is not total and does not ignore the frequency. -/
theorem C9_counterexample_decode_aborts :
    decode_by_given_freq_pattern CARRIER_FREQS [0] = none := by
  have h : binarySearch CARRIER_FREQS 0 = none :=
    binarySearch_carrier_none_of_not_mem 0 (by norm_num [CARRIER_FREQS])
  simp [decode_by_given_freq_pattern, decodeGo, h]

/-- Amended C9: `decode_by_given_freq_pattern` over the carrier table
returns a value (rather than aborting on the failed `unwrap` of the
binary search) exactly when every dominant frequency of the column is
present in the carrier-frequency table; an out-of-table frequency is not
ignored but aborts the program. -/
theorem C9_decode_total_iff_all_carrier (freqs : List ℚ) :
    (decode_by_given_freq_pattern CARRIER_FREQS freqs).isSome ↔
      ∀ f ∈ freqs, f ∈ CARRIER_FREQS :=
  decodeGo_carrier_isSome_iff freqs 0

/-- `Preamble` from src/physics.rs. -/
inductive Preamble where
  | noPreamble : Preamble
  | detected (ending_position : Nat) (signal_bit : Nat) (votes : Nat) : Preamble
deriving Repr, DecidableEq

/-- Modelled from the spec: the per-column sample advance
`stft.output_size()` used by `detect_preamble` for `ending_position`
accounting.  The STFT implementation (window 256, hop 128) lives in the
external `ruststft` crate, which is not under src/; the spec describes
the reported ending offset as "the sample offset before the conflicting
column", i.e. one 128-sample hop per analysis column, which also matches
the bin layout implied by the configured carrier frequencies (exact
multiples of 22050/127, a 128-entry frequency table). -/
def outputSize : Nat := 128

/-- The inner frequency scan of one column in `detect_preamble`
(src/physics.rs): the first dominant frequency within 0.1 of
`PREAMBLE_FREQS[0]` votes bit 0, within 0.1 of `PREAMBLE_FREQS[1]` votes
bit 1; other frequencies are skipped. -/
def columnVote : List ℚ → Option Nat
  | [] => none
  | f :: rest =>
    if |f - PREAMBLE_FREQS.getD 0 0| < 1 / 10 then some 0
    else if |f - PREAMBLE_FREQS.getD 1 0| < 1 / 10 then some 1
    else columnVote rest

/-- The column scan of `detect_preamble` (src/physics.rs) over the
per-column dominant-frequency lists, carrying
`(ending_position, zero_vote, one_vote)`.  The source adds
`stft.output_size()` to `ending_position` before classifying a column and
subtracts it again when the column conflicts with an earlier vote and
breaks the scan; the net advance — one `outputSize` per fully processed
column, none for the aborting column — is modelled directly.  The vote
counters `zero_vote`/`one_vote` are `u8` in the source (they unify with
the `votes: u8` field), so their increments wrap modulo 256 as the
release build does. -/
def detectLoop : List (List ℚ) → Nat → Nat → Nat → Nat × Nat × Nat
  | [], ending, z, o => (ending, z, o)
  | col :: rest, ending, z, o =>
    match columnVote col with
    | some 0 =>
        if o ≠ 0 then (ending, z, o)
        else detectLoop rest (ending + outputSize) ((z + 1) % 256) o
    | some 1 =>
        if z ≠ 0 then (ending, z, o)
        else detectLoop rest (ending + outputSize) z ((o + 1) % 256)
    | _ => detectLoop rest (ending + outputSize) z o

/-- `detect_preamble` from src/physics.rs: `NoPreamble` when both vote
counters end at zero, otherwise `Detected` with the majority bit and its
vote count. -/
def detect_preamble (cols : List (List ℚ)) : Preamble :=
  if (detectLoop cols 0 0 0).2.1 = 0 ∧ (detectLoop cols 0 0 0).2.2 = 0 then
    Preamble.noPreamble
  else
    Preamble.detected (detectLoop cols 0 0 0).1
      (if (detectLoop cols 0 0 0).2.2 < (detectLoop cols 0 0 0).2.1 then 0 else 1)
      (if (detectLoop cols 0 0 0).2.2 < (detectLoop cols 0 0 0).2.1 then
        (detectLoop cols 0 0 0).2.1
      else (detectLoop cols 0 0 0).2.2)

/-- Number of columns in a window voting for preamble bit `b`. -/
def countVotesFor (b : Nat) (cols : List (List ℚ)) : Nat :=
  cols.countP (fun c => columnVote c == some b)

theorem columnVote_cases (c : List ℚ) :
    columnVote c = none ∨ columnVote c = some 0 ∨ columnVote c = some 1 := by
  induction c with
  | nil => left; rfl
  | cons f rest ih =>
    simp only [columnVote]
    split
    · right; left; rfl
    · split
      · right; right; rfl
      · exact ih

theorem detectLoop_counters_le :
    ∀ (cols : List (List ℚ)) (e z o : Nat),
      z + cols.length ≤ 255 → o + cols.length ≤ 255 →
      z ≤ (detectLoop cols e z o).2.1 ∧ o ≤ (detectLoop cols e z o).2.2 := by
  intro cols
  induction cols with
  | nil => intro e z o _ _; exact ⟨Nat.le_refl _, Nat.le_refl _⟩
  | cons col rest ih =>
    intro e z o hz ho
    simp only [List.length_cons] at hz ho
    cases hv : columnVote col with
    | none =>
      simpa only [detectLoop, hv] using
        ih (e + outputSize) z o (by omega) (by omega)
    | some n =>
      rcases n with _ | _ | k
      · simp only [detectLoop, hv]
        split
        · exact ⟨Nat.le_refl _, Nat.le_refl _⟩
        · rw [show (z + 1) % 256 = z + 1 from Nat.mod_eq_of_lt (by omega)]
          have := ih (e + outputSize) (z + 1) o (by omega) (by omega)
          omega
      · simp only [detectLoop, hv]
        split
        · exact ⟨Nat.le_refl _, Nat.le_refl _⟩
        · rw [show (o + 1) % 256 = o + 1 from Nat.mod_eq_of_lt (by omega)]
          have := ih (e + outputSize) z (o + 1) (by omega) (by omega)
          omega
      · simpa only [detectLoop, hv] using
          ih (e + outputSize) z o (by omega) (by omega)

theorem detectLoop_all_none :
    ∀ (cols : List (List ℚ)) (e z o : Nat),
      (∀ c ∈ cols, columnVote c = none) →
      detectLoop cols e z o = (e + outputSize * cols.length, z, o) := by
  intro cols
  induction cols with
  | nil => intro e z o _; simp [detectLoop]
  | cons col rest ih =>
    intro e z o h
    have hc : columnVote col = none := h col (by simp)
    simp only [detectLoop, hc]
    rw [ih (e + outputSize) z o (fun c hc' => h c (List.mem_cons_of_mem _ hc'))]
    have harith : e + outputSize + outputSize * rest.length
        = e + outputSize * (col :: rest).length := by
      simp [List.length_cons, Nat.mul_succ]
      omega
    rw [harith]

theorem detectLoop_zero_counters :
    ∀ (cols : List (List ℚ)) (e : Nat), cols.length ≤ 255 →
      (detectLoop cols e 0 0).2.1 = 0 → (detectLoop cols e 0 0).2.2 = 0 →
      ∀ c ∈ cols, columnVote c = none := by
  intro cols
  induction cols with
  | nil => intro e _ _ _ c hc; simp at hc
  | cons col rest ih =>
    intro e hlen hz ho c hc
    simp only [List.length_cons] at hlen
    rcases columnVote_cases col with hv | hv | hv
    · simp only [detectLoop, hv] at hz ho
      rcases List.mem_cons.1 hc with rfl | hc'
      · exact hv
      · exact ih (e + outputSize) (by omega) hz ho c hc'
    · exfalso
      rw [show detectLoop (col :: rest) e 0 0
          = detectLoop rest (e + outputSize) 1 0 from by simp [detectLoop, hv]]
        at hz
      have := (detectLoop_counters_le rest (e + outputSize) 1 0
        (by omega) (by omega)).1
      omega
    · exfalso
      rw [show detectLoop (col :: rest) e 0 0
          = detectLoop rest (e + outputSize) 0 1 from by simp [detectLoop, hv]]
        at ho
      have := (detectLoop_counters_le rest (e + outputSize) 0 1
        (by omega) (by omega)).2
      omega

theorem detectLoop_append_votes0 :
    ∀ (pre rest : List (List ℚ)) (e z : Nat),
      (∀ x ∈ pre, columnVote x = some 0 ∨ columnVote x = none) →
      z + countVotesFor 0 pre ≤ 255 →
      detectLoop (pre ++ rest) e z 0 =
        detectLoop rest (e + outputSize * pre.length) (z + countVotesFor 0 pre) 0 := by
  intro pre
  induction pre with
  | nil => intro rest e z _ _; simp [countVotesFor]
  | cons col pr ih =>
    intro rest e z h hbound
    rcases h col (by simp) with hv | hv
    · have hcount : countVotesFor 0 (col :: pr) = countVotesFor 0 pr + 1 := by
        simp [countVotesFor, List.countP_cons, hv]
      rw [hcount] at hbound
      simp only [List.cons_append, detectLoop, hv, ne_eq, not_true_eq_false,
        if_false, not_false_eq_true, if_true, List.append_eq]
      rw [show (z + 1) % 256 = z + 1 from Nat.mod_eq_of_lt (by omega)]
      rw [ih rest (e + outputSize) (z + 1)
        (fun x hx => h x (List.mem_cons_of_mem _ hx)) (by omega), hcount,
        List.length_cons, Nat.mul_succ]
      have h1 : e + outputSize + outputSize * pr.length
          = e + (outputSize * pr.length + outputSize) := by omega
      have h2 : z + 1 + countVotesFor 0 pr = z + (countVotesFor 0 pr + 1) := by
        omega
      rw [h1, h2]
    · have hcount : countVotesFor 0 (col :: pr) = countVotesFor 0 pr := by
        simp [countVotesFor, List.countP_cons, hv]
      rw [hcount] at hbound
      simp only [List.cons_append, detectLoop, hv, List.append_eq]
      rw [ih rest (e + outputSize) z
        (fun x hx => h x (List.mem_cons_of_mem _ hx)) hbound, hcount,
        List.length_cons, Nat.mul_succ]
      have h1 : e + outputSize + outputSize * pr.length
          = e + (outputSize * pr.length + outputSize) := by omega
      rw [h1]

theorem detectLoop_append_votes1 :
    ∀ (pre rest : List (List ℚ)) (e o : Nat),
      (∀ x ∈ pre, columnVote x = some 1 ∨ columnVote x = none) →
      o + countVotesFor 1 pre ≤ 255 →
      detectLoop (pre ++ rest) e 0 o =
        detectLoop rest (e + outputSize * pre.length) 0 (o + countVotesFor 1 pre) := by
  intro pre
  induction pre with
  | nil => intro rest e o _ _; simp [countVotesFor]
  | cons col pr ih =>
    intro rest e o h hbound
    rcases h col (by simp) with hv | hv
    · have hcount : countVotesFor 1 (col :: pr) = countVotesFor 1 pr + 1 := by
        simp [countVotesFor, List.countP_cons, hv]
      rw [hcount] at hbound
      simp only [List.cons_append, detectLoop, hv, ne_eq, not_true_eq_false,
        if_false, not_false_eq_true, if_true, List.append_eq]
      rw [show (o + 1) % 256 = o + 1 from Nat.mod_eq_of_lt (by omega)]
      rw [ih rest (e + outputSize) (o + 1)
        (fun x hx => h x (List.mem_cons_of_mem _ hx)) (by omega), hcount,
        List.length_cons, Nat.mul_succ]
      have h1 : e + outputSize + outputSize * pr.length
          = e + (outputSize * pr.length + outputSize) := by omega
      have h2 : o + 1 + countVotesFor 1 pr = o + (countVotesFor 1 pr + 1) := by
        omega
      rw [h1, h2]
    · have hcount : countVotesFor 1 (col :: pr) = countVotesFor 1 pr := by
        simp [countVotesFor, List.countP_cons, hv]
      rw [hcount] at hbound
      simp only [List.cons_append, detectLoop, hv, List.append_eq]
      rw [ih rest (e + outputSize) o
        (fun x hx => h x (List.mem_cons_of_mem _ hx)) hbound, hcount,
        List.length_cons, Nat.mul_succ]
      have h1 : e + outputSize + outputSize * pr.length
          = e + (outputSize * pr.length + outputSize) := by omega
      rw [h1]

/-- Claim C8: preamble detection over a probe window is monotone-only.
Scanning columns in time order — on windows of at most 255 columns, the
domain on which the `u8` vote counters cannot wrap; a real probe window
is 256 samples, a single column — (1) the result is `NoPreamble` exactly
when no column votes for either bit; (2) if a pure run of bit-`b` votes
(with at least one vote) is followed by a column voting the opposite bit,
the scan stops there regardless of later columns, reporting the sample
offset before the conflicting column (one 128-sample advance per
processed column) and only the pure run's vote count; (3) a window with
votes for `b` only reports all of them with the full window's offset. -/
theorem C8_detect_preamble_monotone :
    (∀ cols : List (List ℚ), cols.length ≤ 255 →
      (detect_preamble cols = Preamble.noPreamble ↔
        ∀ c ∈ cols, columnVote c = none)) ∧
    (∀ (b : Nat) (pre : List (List ℚ)) (c : List ℚ) (post : List (List ℚ)),
      b = 0 ∨ b = 1 →
      pre.length ≤ 255 →
      (∀ x ∈ pre, columnVote x = some b ∨ columnVote x = none) →
      0 < countVotesFor b pre →
      columnVote c = some (1 - b) →
      detect_preamble (pre ++ c :: post) =
        Preamble.detected (outputSize * pre.length) b (countVotesFor b pre)) ∧
    (∀ (b : Nat) (cols : List (List ℚ)),
      b = 0 ∨ b = 1 →
      cols.length ≤ 255 →
      (∀ x ∈ cols, columnVote x = some b ∨ columnVote x = none) →
      0 < countVotesFor b cols →
      detect_preamble cols =
        Preamble.detected (outputSize * cols.length) b (countVotesFor b cols)) := by
  refine ⟨?_, ?_, ?_⟩
  · intro cols hlen
    constructor
    · intro h
      by_cases hzo : (detectLoop cols 0 0 0).2.1 = 0 ∧ (detectLoop cols 0 0 0).2.2 = 0
      · exact detectLoop_zero_counters cols 0 hlen hzo.1 hzo.2
      · rw [detect_preamble, if_neg hzo] at h
        exact absurd h (by simp)
    · intro h
      rw [detect_preamble, detectLoop_all_none cols 0 0 0 h]
      simp
  · intro b pre c post hb hlen hpre hcnt hc
    have hcle : countVotesFor b pre ≤ pre.length := List.countP_le_length _
    rcases hb with rfl | rfl
    · norm_num at hc
      have happ := detectLoop_append_votes0 pre (c :: post) 0 0 hpre (by omega)
      simp only [Nat.zero_add] at happ
      have hstep : detectLoop (c :: post) (outputSize * pre.length)
          (countVotesFor 0 pre) 0
          = (outputSize * pre.length, countVotesFor 0 pre, 0) := by
        simp only [detectLoop, hc]
        rw [if_pos (by omega)]
      rw [detect_preamble, happ, hstep]
      have hne : ¬ ((outputSize * pre.length, countVotesFor 0 pre, 0).2.1 = 0 ∧
          (outputSize * pre.length, countVotesFor 0 pre, 0).2.2 = 0) := by
        simp; omega
      rw [if_neg hne]
      simp only []
      rw [if_pos (by simpa using hcnt), if_pos (by simpa using hcnt)]
    · norm_num at hc
      have happ := detectLoop_append_votes1 pre (c :: post) 0 0 hpre (by omega)
      simp only [Nat.zero_add] at happ
      have hstep : detectLoop (c :: post) (outputSize * pre.length) 0
          (countVotesFor 1 pre)
          = (outputSize * pre.length, 0, countVotesFor 1 pre) := by
        simp only [detectLoop, hc]
        rw [if_pos (by omega)]
      rw [detect_preamble, happ, hstep]
      have hne : ¬ ((outputSize * pre.length, 0, countVotesFor 1 pre).2.1 = 0 ∧
          (outputSize * pre.length, 0, countVotesFor 1 pre).2.2 = 0) := by
        simp; omega
      rw [if_neg hne]
      simp only []
      rw [if_neg (by simp), if_neg (by simp)]
  · intro b cols hb hlen hall hcnt
    have hcle : countVotesFor b cols ≤ cols.length := List.countP_le_length _
    rcases hb with rfl | rfl
    · have happ := detectLoop_append_votes0 cols [] 0 0 hall (by omega)
      rw [List.append_nil] at happ
      simp only [Nat.zero_add, detectLoop] at happ
      rw [detect_preamble, happ]
      have hne : ¬ ((outputSize * cols.length, countVotesFor 0 cols, 0).2.1 = 0 ∧
          (outputSize * cols.length, countVotesFor 0 cols, 0).2.2 = 0) := by
        simp; omega
      rw [if_neg hne]
      simp only []
      rw [if_pos (by simpa using hcnt), if_pos (by simpa using hcnt)]
    · have happ := detectLoop_append_votes1 cols [] 0 0 hall (by omega)
      rw [List.append_nil] at happ
      simp only [Nat.zero_add, detectLoop] at happ
      rw [detect_preamble, happ]
      have hne : ¬ ((outputSize * cols.length, 0, countVotesFor 1 cols).2.1 = 0 ∧
          (outputSize * cols.length, 0, countVotesFor 1 cols).2.2 = 0) := by
        simp; omega
      rw [if_neg hne]
      simp only []
      rw [if_neg (by simp), if_neg (by simp)]

/-- Witness for C8: one bit-0 preamble column followed by a conflicting
bit-1 column stops the scan at sample offset 128 with the single
pure-run vote. -/
theorem C8_witness :
    ((0 : Nat) = 0 ∨ (0 : Nat) = 1) ∧
    detect_preamble [[1388976377952756 / 10 ^ 12], [29515748031496064 / 10 ^ 13]]
      = Preamble.detected 128 0 1 := by
  have hv0 : columnVote [(1388976377952756 / 10 ^ 12 : ℚ)] = some 0 := by
    simp only [columnVote, PREAMBLE_FREQS]
    norm_num
  have hv1 : columnVote [(29515748031496064 / 10 ^ 13 : ℚ)] = some 1 := by
    simp only [columnVote, PREAMBLE_FREQS]
    norm_num [abs_lt]
  have hcnt : countVotesFor 0 [[(1388976377952756 / 10 ^ 12 : ℚ)]] = 1 := by
    simp [countVotesFor, List.countP_cons, hv0]
  refine ⟨Or.inl rfl, ?_⟩
  have hmain := C8_detect_preamble_monotone.2.1 0
    [[(1388976377952756 / 10 ^ 12 : ℚ)]]
    [(29515748031496064 / 10 ^ 13 : ℚ)] []
    (Or.inl rfl)
    (by simp)
    (by intro x hx; rw [List.mem_singleton] at hx; subst hx; exact Or.inl hv0)
    (by rw [hcnt]; omega)
    (by simpa using hv1)
  simpa [hcnt, outputSize] using hmain

-- Transmission layer (src/transmission.rs)

/-- `PROBE_SAMPLE_NUMBER` from src/transmission.rs. -/
def PROBE_SAMPLE_NUMBER : Nat := 256

/-- The collect loop inside `Receiver::detect_preambles`
(src/transmission.rs), as a function of the sequence of `detect_preamble`
outcomes that the successive probes produce.  State: cursor `pos`
(`processed_samples`), `cumulated_pos_votes` `pv` (a `u8` in the source,
hence the wrapping `% 256`), `cumulated_neg_votes` `nv` and
`cumulated_spaces` `sp`.  A `Detected` outcome with the wrong bit first
bumps `nv` and breaks — without adding its votes or advancing the cursor
— once `nv` exceeds 3; otherwise every `Detected` outcome's votes are
added and the cursor advances by its `ending_position`.  A `NoPreamble`
outcome advances the cursor by one probe length and breaks once `sp`
exceeds 30.  `none` means the outcome trace was exhausted with the loop
still running; `some (pos, pv, rest)` is the state at the `break`
together with the unconsumed outcomes. -/
def collectLoop (bit : Nat) :
    List Preamble → Nat → Nat → Nat → Nat → Option (Nat × Nat × List Preamble)
  | [], _, _, _, _ => none
  | Preamble.noPreamble :: rest, pos, pv, nv, sp =>
      if sp + 1 > 30 then some (pos + PROBE_SAMPLE_NUMBER, pv, rest)
      else collectLoop bit rest (pos + PROBE_SAMPLE_NUMBER) pv nv (sp + 1)
  | Preamble.detected ep sb v :: rest, pos, pv, nv, sp =>
      if sb ≠ bit then
        if nv + 1 > 3 then some (pos, pv, rest)
        else collectLoop bit rest (pos + ep) ((pv + v) % 256) (nv + 1) sp
      else collectLoop bit rest (pos + ep) ((pv + v) % 256) nv sp

/-- `Receiver::detect_preambles` (src/transmission.rs) over an outcome
trace; the fuel bounds the outer scanning iterations (each consumes at
least one outcome, so `trace.length` fuel is exhaustive).
`some (b, pos, rest)` models `return b` at cursor `pos` with `rest` of
the trace unconsumed; `none` means trace (or fuel) ran out with the loop
still scanning.  The source's only `return` statement is `return true`,
fired when the collect loop exits with more than 20 accumulated votes;
any other collect exit resumes scanning at the current cursor. -/
def detect_preambles (bit : Nat) :
    Nat → List Preamble → Nat → Option (Bool × Nat × List Preamble)
  | 0, _, _ => none
  | _ + 1, [], _ => none
  | fuel + 1, Preamble.noPreamble :: rest, pos =>
      detect_preambles bit fuel rest (pos + PROBE_SAMPLE_NUMBER)
  | fuel + 1, Preamble.detected ep sb _ :: rest, pos =>
      if sb ≠ bit then detect_preambles bit fuel rest (pos + ep)
      else
        match collectLoop bit rest (pos + ep) 0 0 0 with
        | none => none
        | some (p, v, rest') =>
          if v > 20 then some (true, p, rest')
          else detect_preambles bit fuel rest' p

/-- `Receiver::verify_preamble` (src/transmission.rs): successive
`detect_preambles` calls for the bits 1, 0, 1, returning `false` as soon
as one of them does. -/
def verify_preamble (fuel : Nat) (trace : List Preamble) (pos : Nat) :
    Option (Bool × Nat × List Preamble) :=
  match detect_preambles 1 fuel trace pos with
  | none => none
  | some (b1, pos1, t1) =>
    if b1 = false then some (false, pos1, t1)
    else
      match detect_preambles 0 fuel t1 pos1 with
      | none => none
      | some (b2, pos2, t2) =>
        if b2 = false then some (false, pos2, t2)
        else detect_preambles 1 fuel t2 pos2

/-- `Receiver::run` (src/transmission.rs): loop running
`detect_preambles(0)` and then `verify_preamble`; `true` models reaching
the `panic!("get it")` that declares synchronization.  The fuel bounds
the outer loop's iterations. -/
def runReceiver : Nat → List Preamble → Nat → Bool
  | 0, _, _ => false
  | fuel + 1, trace, pos =>
    match detect_preambles 0 (fuel + 1) trace pos with
    | none => false
    | some (b, p, rest) =>
      if b then
        match verify_preamble (fuel + 1) rest p with
        | none => false
        | some (bv, p', rest') => if bv then true else runReceiver fuel rest' p'
      else runReceiver fuel rest p

/-- Total `votes` carried by the `Detected` outcomes of a trace,
regardless of their signal bit. -/
def sumVotes : List Preamble → Nat
  | [] => 0
  | Preamble.noPreamble :: r => sumVotes r
  | Preamble.detected _ _ v :: r => v + sumVotes r

/-- Number of `NoPreamble` outcomes in a trace. -/
def countSilence : List Preamble → Nat
  | [] => 0
  | Preamble.noPreamble :: r => countSilence r + 1
  | Preamble.detected _ _ _ :: r => countSilence r

/-- Number of `Detected` outcomes whose signal bit differs from `bit`. -/
def countMismatch (bit : Nat) : List Preamble → Nat
  | [] => 0
  | Preamble.noPreamble :: r => countMismatch bit r
  | Preamble.detected _ sb _ :: r =>
      if sb ≠ bit then countMismatch bit r + 1 else countMismatch bit r

/-- The vote total that claim C5 describes: votes carried by `Detected`
outcomes whose signal bit matches `bit`. -/
def sumMatchingVotes (bit : Nat) : List Preamble → Nat
  | [] => 0
  | Preamble.noPreamble :: r => sumMatchingVotes bit r
  | Preamble.detected _ sb v :: r =>
      if sb = bit then v + sumMatchingVotes bit r else sumMatchingVotes bit r

/-- Counterexample to C5: sought bit 1; a matching detection with a
single vote starts the collection, after which four mismatched (bit-0)
detections carrying 21 + 1 + 1 votes are seen.  The mismatched votes are
accumulated — `cumulated_pos_votes += votes` runs for mismatched
detections too — so the phase confirms (`return true`) with a total of
23, although the accumulated votes from matching detections are 1 ≤ 20. -/
theorem C5_counterexample :
    detect_preambles 1 6
      [Preamble.detected 0 1 1, Preamble.detected 0 0 21,
       Preamble.detected 0 0 1, Preamble.detected 0 0 1,
       Preamble.detected 0 0 1] 0
      = some (true, 0, []) ∧
    sumMatchingVotes 1
      [Preamble.detected 0 1 1, Preamble.detected 0 0 21,
       Preamble.detected 0 0 1, Preamble.detected 0 0 1,
       Preamble.detected 0 0 1] = 1 := by
  decide

/-- Amended C5: during COLLECTING, the accumulated total adds the votes
of every `Detected` outcome processed before the loop breaks, matching
bit or not (only the mismatched detection that triggers the break is not
added), wrapping at 256 as the `u8` counter does; and when the loop
breaks after a matching entry, the phase returns `true` exactly when
that total exceeds 20, otherwise scanning resumes at the current
cursor. -/
theorem C5_collect_votes_all :
    (∀ (bit : Nat) (trace : List Preamble) (pos pv nv sp p v : Nat)
        (rest : List Preamble), pv < 256 →
      collectLoop bit trace pos pv nv sp = some (p, v, rest) →
      ∃ pre brk, trace = pre ++ brk :: rest ∧
        v = (pv + sumVotes pre) % 256) ∧
    (∀ (fuel bit ep vv : Nat) (trace : List Preamble) (pos p vt : Nat)
        (rest : List Preamble),
      collectLoop bit trace (pos + ep) 0 0 0 = some (p, vt, rest) →
      detect_preambles bit (fuel + 1) (Preamble.detected ep bit vv :: trace) pos
        = if vt > 20 then some (true, p, rest)
          else detect_preambles bit fuel rest p) := by
  constructor
  · intro bit trace
    induction trace with
    | nil =>
      intro pos pv nv sp p v rest hpv h
      exact absurd h (by simp [collectLoop])
    | cons o rest' ih =>
      intro pos pv nv sp p v rest hpv h
      cases o with
      | noPreamble =>
        simp only [collectLoop] at h
        split at h
        · simp only [Option.some.injEq, Prod.mk.injEq] at h
          obtain ⟨hp, hv, hr⟩ := h
          refine ⟨[], Preamble.noPreamble, by simp [hr], ?_⟩
          simp [sumVotes, ← hv, Nat.mod_eq_of_lt hpv]
        · obtain ⟨pre, brk, hsplit, hval⟩ :=
            ih (pos + PROBE_SAMPLE_NUMBER) pv nv (sp + 1) p v rest hpv h
          exact ⟨Preamble.noPreamble :: pre, brk, by simp [hsplit],
            by simpa [sumVotes] using hval⟩
      | detected ep sb vv =>
        simp only [collectLoop] at h
        by_cases hsb : sb ≠ bit
        · rw [if_pos hsb] at h
          split at h
          · simp only [Option.some.injEq, Prod.mk.injEq] at h
            obtain ⟨hp, hv, hr⟩ := h
            refine ⟨[], Preamble.detected ep sb vv, by simp [hr], ?_⟩
            simp [sumVotes, ← hv, Nat.mod_eq_of_lt hpv]
          · obtain ⟨pre, brk, hsplit, hval⟩ :=
              ih (pos + ep) ((pv + vv) % 256) (nv + 1) sp p v rest
                (Nat.mod_lt _ (by norm_num)) h
            refine ⟨Preamble.detected ep sb vv :: pre, brk, by simp [hsplit], ?_⟩
            rw [hval]
            simp only [sumVotes]
            omega
        · rw [if_neg hsb] at h
          obtain ⟨pre, brk, hsplit, hval⟩ :=
            ih (pos + ep) ((pv + vv) % 256) nv sp p v rest
              (Nat.mod_lt _ (by norm_num)) h
          refine ⟨Preamble.detected ep sb vv :: pre, brk, by simp [hsplit], ?_⟩
          rw [hval]
          simp only [sumVotes]
          omega
  · intro fuel bit ep vv trace pos p vt rest h
    simp only [detect_preambles, ne_eq, eq_self_iff_true, not_true_eq_false,
      if_false, ite_false, h]

/-- Witness for C5: the collect run of the counterexample trace has exit
total 23 = (21 + 1 + 1) % 256, the sum over all detections in the
consumed prefix. -/
theorem C5_witness :
    (0 : Nat) < 256 ∧
    collectLoop 1
      [Preamble.detected 0 0 21, Preamble.detected 0 0 1,
       Preamble.detected 0 0 1, Preamble.detected 0 0 1] 0 0 0 0
      = some (0, 23, []) ∧
    (∃ pre brk,
      [Preamble.detected 0 0 21, Preamble.detected 0 0 1,
       Preamble.detected 0 0 1, Preamble.detected 0 0 1]
        = pre ++ brk :: ([] : List Preamble) ∧
      23 = (0 + sumVotes pre) % 256) :=
  ⟨by norm_num, by decide,
    C5_collect_votes_all.1 1
      [Preamble.detected 0 0 21, Preamble.detected 0 0 1,
       Preamble.detected 0 0 1, Preamble.detected 0 0 1]
      0 0 0 0 0 23 [] (by norm_num) (by decide)⟩

/-- The claim-C6 reading of the collect loop, for comparison with the
source: identical to `collectLoop` except that the `NoPreamble` counter
tracks only consecutive silent probes, being reset by every `Detected`
outcome. -/
def collectLoopConsecutive (bit : Nat) :
    List Preamble → Nat → Nat → Nat → Nat → Option (Nat × Nat × List Preamble)
  | [], _, _, _, _ => none
  | Preamble.noPreamble :: rest, pos, pv, nv, sp =>
      if sp + 1 > 30 then some (pos + PROBE_SAMPLE_NUMBER, pv, rest)
      else collectLoopConsecutive bit rest (pos + PROBE_SAMPLE_NUMBER) pv nv (sp + 1)
  | Preamble.detected ep sb v :: rest, pos, pv, nv, sp =>
      if sb ≠ bit then
        if nv + 1 > 3 then some (pos, pv, rest)
        else collectLoopConsecutive bit rest (pos + ep) ((pv + v) % 256) (nv + 1) 0
      else collectLoopConsecutive bit rest (pos + ep) ((pv + v) % 256) nv 0

/-- Counterexample to C6: 30 silent probes, one matching detection, then
one more silent probe.  The source's `cumulated_spaces` counter is never
reset by a `Detected` outcome, so the 31st silent probe overall — only
the 1st consecutive one — aborts the collect run, while under the
claim's consecutive reading (`collectLoopConsecutive`) the run would
still be collecting. -/
theorem C6_counterexample :
    (collectLoop 1
      (List.replicate 30 Preamble.noPreamble ++
        [Preamble.detected 0 1 1, Preamble.noPreamble]) 0 0 0 0).isSome = true ∧
    collectLoopConsecutive 1
      (List.replicate 30 Preamble.noPreamble ++
        [Preamble.detected 0 1 1, Preamble.noPreamble]) 0 0 0 0 = none := by
  decide

/-- Amended C6: the COLLECTING loop exits exactly when a mismatched-bit
detection arrives with more than 3 mismatches accumulated, or a silent
probe arrives with more than 30 silent probes accumulated over the whole
run (the counter is cumulative, never reset by detections); if the trace
ends with neither bound exceeded the loop is still running.  After such
an exit, scanning resumes from the current cursor position whenever the
accumulated votes do not exceed 20. -/
theorem C6_collect_abandon :
    (∀ (bit : Nat) (trace : List Preamble) (pos pv nv sp p v : Nat)
        (rest : List Preamble),
      collectLoop bit trace pos pv nv sp = some (p, v, rest) →
      ∃ pre brk, trace = pre ++ brk :: rest ∧
        ((brk = Preamble.noPreamble ∧ sp + countSilence pre + 1 > 30) ∨
         (∃ ep sb vv, brk = Preamble.detected ep sb vv ∧ sb ≠ bit ∧
           nv + countMismatch bit pre + 1 > 3))) ∧
    (∀ (bit : Nat) (trace : List Preamble) (pos pv nv sp : Nat),
      sp ≤ 30 → nv ≤ 3 →
      collectLoop bit trace pos pv nv sp = none →
      sp + countSilence trace ≤ 30 ∧ nv + countMismatch bit trace ≤ 3) ∧
    (∀ (fuel bit ep vv : Nat) (trace : List Preamble) (pos p vt : Nat)
        (rest : List Preamble),
      collectLoop bit trace (pos + ep) 0 0 0 = some (p, vt, rest) → vt ≤ 20 →
      detect_preambles bit (fuel + 1) (Preamble.detected ep bit vv :: trace) pos
        = detect_preambles bit fuel rest p) := by
  refine ⟨?_, ?_, ?_⟩
  · intro bit trace
    induction trace with
    | nil =>
      intro pos pv nv sp p v rest h
      exact absurd h (by simp [collectLoop])
    | cons o rest' ih =>
      intro pos pv nv sp p v rest h
      cases o with
      | noPreamble =>
        simp only [collectLoop] at h
        split at h
        · simp only [Option.some.injEq, Prod.mk.injEq] at h
          obtain ⟨hp, hv, hr⟩ := h
          refine ⟨[], Preamble.noPreamble, by simp [hr], Or.inl ⟨rfl, ?_⟩⟩
          simp only [countSilence]
          omega
        · obtain ⟨pre, brk, hsplit, hcond⟩ :=
            ih (pos + PROBE_SAMPLE_NUMBER) pv nv (sp + 1) p v rest h
          refine ⟨Preamble.noPreamble :: pre, brk, by simp [hsplit], ?_⟩
          rcases hcond with ⟨hbrk, hcnt⟩ | ⟨ep, sb, vv, hbrk, hsb, hcnt⟩
          · refine Or.inl ⟨hbrk, ?_⟩
            simp only [countSilence]
            omega
          · refine Or.inr ⟨ep, sb, vv, hbrk, hsb, ?_⟩
            simp only [countMismatch]
            omega
      | detected ep sb vv =>
        simp only [collectLoop] at h
        by_cases hsb : sb ≠ bit
        · rw [if_pos hsb] at h
          split at h
          · simp only [Option.some.injEq, Prod.mk.injEq] at h
            obtain ⟨hp, hv, hr⟩ := h
            refine ⟨[], Preamble.detected ep sb vv, by simp [hr],
              Or.inr ⟨ep, sb, vv, rfl, hsb, ?_⟩⟩
            simp only [countMismatch]
            omega
          · obtain ⟨pre, brk, hsplit, hcond⟩ :=
              ih (pos + ep) ((pv + vv) % 256) (nv + 1) sp p v rest h
            refine ⟨Preamble.detected ep sb vv :: pre, brk, by simp [hsplit], ?_⟩
            rcases hcond with ⟨hbrk, hcnt⟩ | ⟨ep', sb', vv', hbrk, hsb', hcnt⟩
            · refine Or.inl ⟨hbrk, ?_⟩
              simp only [countSilence]
              omega
            · refine Or.inr ⟨ep', sb', vv', hbrk, hsb', ?_⟩
              simp only [countMismatch, if_pos hsb]
              omega
        · rw [if_neg hsb] at h
          obtain ⟨pre, brk, hsplit, hcond⟩ :=
            ih (pos + ep) ((pv + vv) % 256) nv sp p v rest h
          refine ⟨Preamble.detected ep sb vv :: pre, brk, by simp [hsplit], ?_⟩
          rcases hcond with ⟨hbrk, hcnt⟩ | ⟨ep', sb', vv', hbrk, hsb', hcnt⟩
          · refine Or.inl ⟨hbrk, ?_⟩
            simp only [countSilence]
            omega
          · refine Or.inr ⟨ep', sb', vv', hbrk, hsb', ?_⟩
            simp only [countMismatch, if_neg hsb]
            omega
  · intro bit trace
    induction trace with
    | nil =>
      intro pos pv nv sp hsp hnv _
      simp only [countSilence, countMismatch]
      omega
    | cons o rest' ih =>
      intro pos pv nv sp hsp hnv h
      cases o with
      | noPreamble =>
        simp only [collectLoop] at h
        split at h
        · exact absurd h (by simp)
        · rename_i hbound
          have := ih (pos + PROBE_SAMPLE_NUMBER) pv nv (sp + 1) (by omega) hnv h
          simp only [countSilence, countMismatch]
          omega
      | detected ep sb vv =>
        simp only [collectLoop] at h
        by_cases hsb : sb ≠ bit
        · rw [if_pos hsb] at h
          split at h
          · exact absurd h (by simp)
          · rename_i hbound
            have := ih (pos + ep) ((pv + vv) % 256) (nv + 1) sp hsp (by omega) h
            simp only [countSilence, countMismatch, if_pos hsb]
            omega
        · rw [if_neg hsb] at h
          have := ih (pos + ep) ((pv + vv) % 256) nv sp hsp hnv h
          simp only [countSilence, countMismatch, if_neg hsb]
          omega
  · intro fuel bit ep vv trace pos p vt rest h hle
    simp only [detect_preambles, ne_eq, eq_self_iff_true, not_true_eq_false,
      if_false, ite_false, h]
    rw [if_neg (by omega)]

/-- Witness for C6: the counterexample trace's collect run exits at the
31st cumulative silent probe, and the characterization locates that
silent probe as the breaking outcome. -/
theorem C6_witness :
    collectLoop 1
      (List.replicate 30 Preamble.noPreamble ++
        [Preamble.detected 0 1 1, Preamble.noPreamble]) 0 0 0 0
      = some (7936, 1, []) ∧
    (∃ pre brk,
      List.replicate 30 Preamble.noPreamble ++
        [Preamble.detected 0 1 1, Preamble.noPreamble]
        = pre ++ brk :: ([] : List Preamble) ∧
      ((brk = Preamble.noPreamble ∧ 0 + countSilence pre + 1 > 30) ∨
       (∃ ep sb vv, brk = Preamble.detected ep sb vv ∧ sb ≠ 1 ∧
         0 + countMismatch 1 pre + 1 > 3))) :=
  ⟨by decide,
    C6_collect_abandon.1 1
      (List.replicate 30 Preamble.noPreamble ++
        [Preamble.detected 0 1 1, Preamble.noPreamble])
      0 0 0 0 7936 1 [] (by decide)⟩

/-- The confirmation sequence `run` actually performs: `detect_preambles`
for bit 0 (the `run` loop's own probe), then for bits 1, 0, 1 (the
`verify_preamble` sequence), each continuing where the previous one left
the trace and cursor. -/
def fourStep (fuel : Nat) (trace : List Preamble) (pos : Nat) :
    Option (Bool × Nat × List Preamble) :=
  match detect_preambles 0 fuel trace pos with
  | none => none
  | some (_, p1, t1) =>
    match detect_preambles 1 fuel t1 p1 with
    | none => none
    | some (_, p2, t2) =>
      match detect_preambles 0 fuel t2 p2 with
      | none => none
      | some (_, p3, t3) => detect_preambles 1 fuel t3 p3

/-- A trace of three confirmation blocks for the bits 1, 0, 1: each block
is a matching entry detection, a matching detection with 21 votes, and
four opposite-bit detections whose fourth aborts the collect run with 24
accumulated votes, confirming the bit. -/
def confirmTrace101 : List Preamble :=
  [Preamble.detected 0 1 1, Preamble.detected 0 1 21,
   Preamble.detected 0 0 1, Preamble.detected 0 0 1,
   Preamble.detected 0 0 1, Preamble.detected 0 0 1,
   Preamble.detected 0 0 1, Preamble.detected 0 0 21,
   Preamble.detected 0 1 1, Preamble.detected 0 1 1,
   Preamble.detected 0 1 1, Preamble.detected 0 1 1,
   Preamble.detected 0 1 1, Preamble.detected 0 1 21,
   Preamble.detected 0 0 1, Preamble.detected 0 0 1,
   Preamble.detected 0 0 1, Preamble.detected 0 0 1]

/-- Counterexample to C7: `confirmTrace101` drives the three-step
`verify_preamble` sequence `[1, 0, 1]` to success from its very start,
yet `run` does not declare synchronization on it: `run` first demands a
bit-0 confirmation, which consumes the trace differently, and the
remaining outcomes cannot finish the subsequent `[1, 0, 1]` sequence.
Synchronization is therefore not declared exactly after three successive
confirmations of `[1, 0, 1]`. -/
theorem C7_counterexample :
    verify_preamble 18 confirmTrace101 0 = some (true, 0, []) ∧
    runReceiver 18 confirmTrace101 0 = false := by
  decide

/-- Amended C7: a `detect_preambles` step can never fail — whenever it
returns, it returns `true` (the source's only `return` statement), so
the `verify_preamble` steps never restart the sequence from `SCANNING`;
and `run` declares synchronization (reaches `panic!("get it")`) exactly
when the four-step confirmation sequence for the bits 0, 1, 0, 1 — the
`run` loop's own bit-0 probe followed by `verify_preamble`'s `[1, 0, 1]`
— completes within the trace. -/
theorem C7_sync_four_step :
    (∀ (bit fuel : Nat) (trace : List Preamble) (pos : Nat),
      ((detect_preambles bit fuel trace pos).getD (true, 0, [])).1 = true) ∧
    (∀ (fuel : Nat) (trace : List Preamble) (pos : Nat),
      runReceiver (fuel + 1) trace pos = (fourStep (fuel + 1) trace pos).isSome) := by
  have ha : ∀ (bit fuel : Nat) (trace : List Preamble) (pos : Nat),
      ((detect_preambles bit fuel trace pos).getD (true, 0, [])).1 = true := by
    intro bit fuel
    induction fuel with
    | zero => intro trace pos; rfl
    | succ n ih =>
      intro trace pos
      cases trace with
      | nil => rfl
      | cons o rest =>
        cases o with
        | noPreamble => exact ih rest (pos + PROBE_SAMPLE_NUMBER)
        | detected ep sb vv =>
          by_cases hsb : sb ≠ bit
          · simpa only [detect_preambles, if_pos hsb] using ih rest (pos + ep)
          · simp only [detect_preambles, if_neg hsb]
            cases hc : collectLoop bit rest (pos + ep) 0 0 0 with
            | none => rfl
            | some r =>
              obtain ⟨p, v, rest'⟩ := r
              by_cases hv : v > 20
              · simp [hv]
              · simpa [hv] using ih rest' p
  refine ⟨ha, ?_⟩
  intro fuel trace pos
  show runReceiver (fuel + 1) trace pos = (fourStep (fuel + 1) trace pos).isSome
  rw [runReceiver, fourStep]
  cases h0 : detect_preambles 0 (fuel + 1) trace pos with
  | none => rfl
  | some r0 =>
    obtain ⟨b0, p1, t1⟩ := r0
    have hb0 : b0 = true := by
      have := ha 0 (fuel + 1) trace pos
      rw [h0] at this
      exact this
    subst hb0
    simp only [if_true, ite_true]
    rw [verify_preamble]
    cases h1 : detect_preambles 1 (fuel + 1) t1 p1 with
    | none => rfl
    | some r1 =>
      obtain ⟨b1, p2, t2⟩ := r1
      have hb1 : b1 = true := by
        have := ha 1 (fuel + 1) t1 p1
        rw [h1] at this
        exact this
      subst hb1
      simp only [Bool.true_eq_false, if_false, ite_false]
      cases h2 : detect_preambles 0 (fuel + 1) t2 p2 with
      | none => rfl
      | some r2 =>
        obtain ⟨b2, p3, t3⟩ := r2
        have hb2 : b2 = true := by
          have := ha 0 (fuel + 1) t2 p2
          rw [h2] at this
          exact this
        subst hb2
        simp only [Bool.true_eq_false, if_false, ite_false]
        cases h3 : detect_preambles 1 (fuel + 1) t3 p3 with
        | none => rfl
        | some r3 =>
          obtain ⟨b3, p4, t4⟩ := r3
          have hb3 : b3 = true := by
            have := ha 1 (fuel + 1) t3 p3
            rw [h3] at this
            exact this
          subst hb3
          simp

/-- Witness for C10 at a concrete 3-byte input: its single packet is a
member of the chunking and respects the 128-byte bound. -/
theorem C10_witness :
    (⟨0, [1, 2, 3]⟩ : Packet) ∈ new_packets [1, 2, 3] ∧
    (⟨0, [1, 2, 3]⟩ : Packet).data.length ≤ 128 :=
  ⟨by decide, (C10_new_packets_layout.1 [1, 2, 3]).2.1 ⟨0, [1, 2, 3]⟩ (by decide)⟩
